import Mathlib

/-!
Verification of the aggregation engine in `orchestrator/oracle/oracle.go`.

The Go code is shallowly embedded: `sdk.Dec` (arbitrary-precision decimal) is
modelled as `ℚ`, Go maps as association lists with unique keys (`alookup` /
`ainsert`), and fallible functions return `Except String`.  External
collaborators from the umee price-feeder (`StandardDeviation`, `ComputeTVWAP`,
`ComputeVWAP`) are out of scope of the repository and are modelled from the
specification's documented contracts; each such definition carries a doc
comment saying so.
-/

namespace PeggoOracle

/-- Ticker sample of one provider for one pair: price and volume
(umee `provider.TickerPrice`, decimals modelled as `ℚ`). -/
structure TickerPrice where
  price : ℚ
  volume : ℚ
deriving DecidableEq, Repr

/-- Candle sample: price, volume and end time stamp
(umee `provider.CandlePrice`). -/
structure CandlePrice where
  price : ℚ
  volume : ℚ
  timeStamp : ℤ
deriving DecidableEq, Repr

instance [DecidableEq ε] [DecidableEq α] : DecidableEq (Except ε α) := fun a b =>
  match a, b with
  | .ok x, .ok y => decidable_of_iff (x = y) (by simp)
  | .error x, .error y => decidable_of_iff (x = y) (by simp)
  | .ok _, .error _ => isFalse (by simp)
  | .error _, .ok _ => isFalse (by simp)

/-- Go map semantics over association lists: first matching key. -/
def alookup : List (String × α) → String → Option α
  | [], _ => none
  | (k, v) :: rest, key => if k = key then some v else alookup rest key

/-- Go map insertion: replace the binding when the key exists, append otherwise. -/
def ainsert : List (String × α) → String → α → List (String × α)
  | [], k, v => [(k, v)]
  | (k1, v1) :: rest, k, v =>
    if k1 = k then (k, v) :: rest else (k1, v1) :: ainsert rest k v

/-- Keys of an association list. -/
def akeys (m : List (String × α)) : List String := m.map Prod.fst

/-- Well-formedness of a Go map image: keys are unique. -/
def WFmap (m : List (String × α)) : Prop := (akeys m).Nodup

instance (m : List (String × α)) : Decidable (WFmap m) := by
  unfold WFmap; infer_instance

/-- Well-formedness of a nested map (provider name => base symbol => value). -/
def WF2 (m : List (String × List (String × α))) : Prop :=
  WFmap m ∧ ∀ e ∈ m, WFmap e.2

instance (m : List (String × List (String × α))) : Decidable (WF2 m) := by
  unfold WF2; infer_instance

/-- Nested lookup: provider name then base symbol. -/
def lookup2 (m : List (String × List (String × α))) (p b : String) : Option α :=
  match alookup m p with
  | none => none
  | some inner => alookup inner b

/-- `provider.AggregatedProviderPrices`: providerName => baseSymbol => TickerPrice. -/
abbrev AggregatedProviderPrices := List (String × List (String × TickerPrice))

/-- `provider.AggregatedProviderCandles`: providerName => baseSymbol => candles. -/
abbrev AggregatedProviderCandles := List (String × List (String × List CandlePrice))

/-- `deviationThreshold = sdk.MustNewDecFromStr("2")`: how many standard
deviations a provider can be away from the mean without being considered
faulty. -/
def deviationThreshold : ℚ := 2

/-- Newton iteration for integer square roots, with explicit fuel so that the
kernel can evaluate it. -/
def sqrtIter : Nat → Nat → Nat → Nat
  | 0, _, guess => guess
  | fuel + 1, n, guess =>
    let next := (guess + n / guess) / 2
    if next < guess then sqrtIter fuel n next else guess

/-- Integer square root approximation (floor of the real square root up to
the convergence of the Newton iteration). -/
def natSqrtApprox (n : Nat) : Nat :=
  if n ≤ 1 then n else sqrtIter 200 n (n / 2)

/-- Square root on decimals, accurate to 9 decimal places; stands in for
`sdk.Dec.ApproxSqrt` inside the modelled statistics collaborator. -/
def decSqrt (q : ℚ) : ℚ :=
  if q ≤ 0 then 0
  else (natSqrtApprox (q.num.toNat * 10 ^ 18 / q.den) : ℚ) / ((10 ^ 9 : ℕ) : ℚ)

/-- All base symbols present in at least one provider of a nested value map. -/
def allBases (values : List (String × List (String × α))) : List String :=
  ((values.map fun e => akeys e.2).flatten).dedup

/-- The values contributed by the providers for one base symbol, in provider
order. -/
def valuesFor (values : List (String × List (String × ℚ))) (base : String) : List ℚ :=
  values.filterMap fun e => alookup e.2 base

/-- The assets for which the modelled statistics collaborator computes a
standard deviation: those contributed by at least 2 providers. -/
def sdBases (values : List (String × List (String × ℚ))) : List String :=
  (allBases values).filter fun b => 2 ≤ (valuesFor values b).length

/-- Cross-provider mean of the values contributed for one asset. -/
def sdMean (values : List (String × List (String × ℚ))) (b : String) : ℚ :=
  (valuesFor values b).sum / ((valuesFor values b).length : ℚ)

/-- Cross-provider population standard deviation of the values contributed
for one asset, with the square root approximated by `decSqrt`. -/
def sdDev (values : List (String × List (String × ℚ))) (b : String) : ℚ :=
  decSqrt
    (((valuesFor values b).map fun v =>
        (v - sdMean values b) * (v - sdMean values b)).sum /
      ((valuesFor values b).length : ℚ))

/-- Modelled from the spec: the statistics collaborator `standardDeviation`
(spec section 6) of the umee price-feeder, whose source is not part of this
repository.  For each asset contributed by at least 2 providers it returns the
cross-provider (population) standard deviation and mean of the contributed
values; an asset with fewer than 2 contributing providers is absent from both
result maps.  The modelled function never fails. -/
def StandardDeviation (values : List (String × List (String × ℚ))) :
    List (String × ℚ) × List (String × ℚ) :=
  ((sdBases values).map fun b => (b, sdDev values b),
   (sdBases values).map fun b => (b, sdMean values b))

/-- The acceptance test shared by both deviation filters (oracle.go lines
373-375 and 421-423): accept when no deviation was computed for the base, or
when the value lies within mean ± threshold·deviation. -/
def keepSample (deviations means : List (String × ℚ)) (base : String) (value : ℚ) : Bool :=
  match alookup deviations base with
  | none => true
  | some dev =>
    let mean := (alookup means base).getD 0
    decide (mean - dev * deviationThreshold ≤ value) &&
      decide (value ≤ mean + dev * deviationThreshold)

/-- The per-provider price map extracted by `filterTickerDeviations`
(oracle.go lines 404-411). -/
def toPriceMap (prices : AggregatedProviderPrices) : List (String × List (String × ℚ)) :=
  prices.map fun e => (e.1, e.2.map fun t => (t.1, t.2.price))

/-- `Oracle.filterTickerDeviations` (oracle.go lines 396-440): find the
standard deviations of the prices of all assets and filter out any provider
sample that is not within `deviationThreshold` standard deviations of the
mean.  A provider appears in the result only when at least one of its samples
is kept. -/
def filterTickerDeviations (prices : AggregatedProviderPrices) :
    Except String AggregatedProviderPrices :=
  let dm := StandardDeviation (toPriceMap prices)
  .ok (prices.filterMap fun e =>
    let kept := e.2.filter fun t => keepSample dm.1 dm.2 t.1 t.2.price
    if kept.isEmpty then none else some (e.1, kept))

/-- Length of the recent time window of candles entering the TVWAP, in
seconds (umee `tvwapCandlePeriod`, spec: "covering a recent time window"). -/
def tvwapCandlePeriod : ℤ := 300

/-- All candles contributed for one base symbol across providers, in provider
order. -/
def candlesFor (candles : AggregatedProviderCandles) (base : String) : List CandlePrice :=
  (candles.filterMap fun e => alookup e.2 base).flatten

/-- Modelled from the spec: the weighting collaborator `computeTVWAP` (spec
section 6) of the umee price-feeder, whose source is not part of this
repository.  Per asset it averages the candle prices inside the recent time
window, weighting more recent, higher-volume candles more heavily (weight =
volume · remaining window time); an asset none of whose candles carry positive
in-window weight is absent from the result, so empty or stale candle data
yields no price.  The modelled function never fails. -/
def tvwapAll (now : ℤ) (candles : AggregatedProviderCandles) : List (String × ℚ) :=
  (allBases candles).filterMap fun b =>
    let cs := (candlesFor candles b).filter fun c => now - tvwapCandlePeriod < c.timeStamp
    let wsum := (cs.map fun c => c.volume * ((c.timeStamp - (now - tvwapCandlePeriod) : ℤ) : ℚ)).sum
    if wsum = 0 then none
    else some (b, (cs.map fun c =>
      c.price * (c.volume * ((c.timeStamp - (now - tvwapCandlePeriod) : ℤ) : ℚ))).sum / wsum)

/-- The modelled `computeTVWAP` as an `Except`, matching the collaborator's
signature; the modelled function never fails. -/
def ComputeTVWAP (now : ℤ) (candles : AggregatedProviderCandles) :
    Except String (List (String × ℚ)) :=
  .ok (tvwapAll now candles)

/-- The TVWAP scalars of a single provider's candles, as computed inside
`filterCandleDeviations`. -/
def tvwapOf (now : ℤ) (e : String × List (String × List CandlePrice)) :
    List (String × ℚ) :=
  tvwapAll now [e]

/-- The tvwaps map built by `filterCandleDeviations` (oracle.go lines
337-363): providerName => baseSymbol => per-provider TVWAP scalar. -/
def tvwapsOfAll (now : ℤ) (candles : AggregatedProviderCandles) :
    List (String × List (String × ℚ)) :=
  candles.map fun e => (e.1, tvwapOf now e)

/-- The per-provider TVWAP loop of `filterCandleDeviations` (oracle.go lines
340-363): for each provider, compute the TVWAP of that provider's candles
alone, failing when the computation fails. -/
def tvwapsLoop (now : ℤ) :
    AggregatedProviderCandles → Except String (List (String × List (String × ℚ)))
  | [] => .ok []
  | e :: rest =>
    match ComputeTVWAP now [e] with
    | .error err => .error err
    | .ok tv =>
      match tvwapsLoop now rest with
      | .error err => .error err
      | .ok m => .ok ((e.1, tv) :: m)

/-- `Oracle.filterCandleDeviations` (oracle.go lines 332-392): reduce each
provider's candles to a per-asset TVWAP scalar, find the standard deviations
of those scalars, and keep the candles of exactly the (provider, asset)
scalars that pass `keepSample`; the kept entry copies the provider's original
candle list from the input. -/
def filterCandleDeviations (now : ℤ) (candles : AggregatedProviderCandles) :
    Except String AggregatedProviderCandles :=
  match tvwapsLoop now candles with
  | .error e => .error e
  | .ok tvwaps =>
    let dm := StandardDeviation tvwaps
    .ok (tvwaps.filterMap fun e =>
      let kept := e.2.filter fun t => keepSample dm.1 dm.2 t.1 t.2
      if kept.isEmpty then none
      else some (e.1, kept.map fun t => (t.1, (lookup2 candles e.1 t.1).getD [])))

/-- All ticker samples contributed for one base symbol across providers, in
provider order. -/
def tickersFor (prices : AggregatedProviderPrices) (base : String) : List TickerPrice :=
  prices.filterMap fun e => alookup e.2 base

/-- Recursion underlying the modelled `computeVWAP`. -/
def vwapLoop (prices : AggregatedProviderPrices) :
    List String → Except String (List (String × ℚ))
  | [] => .ok []
  | b :: rest =>
    let ts := tickersFor prices b
    let vsum := (ts.map fun t => t.volume).sum
    if vsum = 0 then .error ("unable to get the vwap for " ++ b)
    else
      match vwapLoop prices rest with
      | .error e => .error e
      | .ok m => .ok ((b, (ts.map fun t => t.price * t.volume).sum / vsum) :: m)

/-- Modelled from the spec: the weighting collaborator `computeVWAP` (spec
section 6, glossary) of the umee price-feeder, whose source is not part of
this repository.  Per asset it averages the provider ticker prices weighted by
volume, and fails when an asset's total volume is zero. -/
def ComputeVWAP (prices : AggregatedProviderPrices) : Except String (List (String × ℚ)) :=
  vwapLoop prices (allBases prices)

/-- A currency pair (umee `types.CurrencyPair`). -/
structure CurrencyPair where
  Base : String
  Quote : String
deriving DecidableEq, Repr

/-- `types.CurrencyPair.String()`: the symbol used as the lookup key within a
provider's available and subscribed sets. -/
def pairKey (cp : CurrencyPair) : String := cp.Base ++ cp.Quote

/-- The per-provider state of the oracle's `Provider` wrapper.  The wire-level
umee provider client is external; its subscription call is abstracted by the
`subscribeFails` flag (whether `SubscribeCurrencyPairs` fails for this
provider). -/
structure Provider where
  availablePairs : List String
  subscribedPairs : List (String × CurrencyPair)
  subscribeFails : Bool
deriving DecidableEq, Repr

/-- The shared state of the `Oracle` struct that the claims concern. -/
structure OracleState where
  providers : List (String × Provider)
  prices : List (String × ℚ)
  subscribedBaseSymbols : List String
deriving DecidableEq, Repr

/-- `GetStablecoinsCurrencyPair` (oracle.go lines 452-464). -/
def GetStablecoinsCurrencyPair (baseSymbol : String) : List CurrencyPair :=
  ["USD", "USDT", "UST"].map fun quote => { Base := baseSymbol.toUpper, Quote := quote }

/-- The loop body of `Oracle.GetPrices` (oracle.go lines 96-102), with the
accumulated result map made explicit. -/
def getPricesLoop (prices : List (String × ℚ)) :
    List String → List (String × ℚ) → Except String (List (String × ℚ))
  | [], acc => .ok acc
  | b :: rest, acc =>
    match alookup prices b with
    | none => .error ("error getting price for " ++ b)
    | some p => getPricesLoop prices rest (ainsert acc b p)

/-- `Oracle.GetPrices` (oracle.go lines 89-105). -/
def GetPrices (st : OracleState) (baseSymbols : List String) :
    Except String (List (String × ℚ)) :=
  getPricesLoop st.prices baseSymbols []

/-- `Oracle.GetPrice` (oracle.go lines 107-118). -/
def GetPrice (st : OracleState) (baseSymbol : String) : Except String ℚ :=
  match alookup st.prices baseSymbol with
  | none => .error ("error getting price for " ++ baseSymbol)
  | some p => .ok p

/-- `provider.MapPairsToSlice`: the values of a subscribed-pairs map, i.e.
the pairs a tick's collection polls from the provider. -/
def MapPairsToSlice (m : List (String × CurrencyPair)) : List CurrencyPair :=
  m.map Prod.snd

/-- The candidate pairs `subscribeProviders` actually subscribes for one
provider (oracle.go lines 145-163): skip pairs already subscribed and pairs
not available. -/
def pairsToSubscribe (prov : Provider) (currencyPairs : List CurrencyPair) :
    List CurrencyPair :=
  currencyPairs.filter fun cp =>
    (alookup prov.subscribedPairs (pairKey cp)).isNone &&
      prov.availablePairs.contains (pairKey cp)

/-- Recording the accepted pairs in a provider's subscribed map (oracle.go
lines 172-174). -/
def recordPairs (prov : Provider) (ps : List CurrencyPair) : Provider :=
  { prov with
    subscribedPairs := ps.foldl (fun m p => ainsert m (pairKey p) p) prov.subscribedPairs }

/-- `Oracle.subscribeProviders` (oracle.go lines 143-178).  Providers are
visited in order; the external `SubscribeCurrencyPairs` call is abstracted by
`subscribeFails`.  On failure the loop returns the error immediately:
providers visited earlier keep their newly recorded pairs, the failing
provider and the unvisited ones are untouched. -/
def subscribeProviders (currencyPairs : List CurrencyPair) :
    List (String × Provider) → Option String × List (String × Provider)
  | [] => (none, [])
  | (name, prov) :: rest =>
    if prov.subscribeFails then
      (some ("subscribing to new currency pairs " ++ name), (name, prov) :: rest)
    else
      let prov1 := recordPairs prov (pairsToSubscribe prov currencyPairs)
      let r := subscribeProviders currencyPairs rest
      (r.1, (name, prov1) :: r.2)

/-- The loop body of `Oracle.SubscribeSymbols` (oracle.go lines 126-138). -/
def subscribeSymbolsLoop : List String → OracleState → Option String × OracleState
  | [], st => (none, st)
  | b :: rest, st =>
    if st.subscribedBaseSymbols.contains b then subscribeSymbolsLoop rest st
    else
      let r := subscribeProviders (GetStablecoinsCurrencyPair b) st.providers
      match r.1 with
      | some e => (some e, { st with providers := r.2 })
      | none =>
        subscribeSymbolsLoop rest
          { st with
            providers := r.2,
            subscribedBaseSymbols := st.subscribedBaseSymbols ++ [b] }

/-- `Oracle.SubscribeSymbols` (oracle.go lines 122-141). -/
def SubscribeSymbols (st : OracleState) (baseSymbols : List String) :
    Option String × OracleState :=
  subscribeSymbolsLoop baseSymbols st

/-- `Oracle.loadAvailablePairs` (oracle.go lines 205-217), with the external
`GetAvailablePairs` responses passed in per provider name (`none` and a
missing entry model the error case): a provider whose call fails or returns
an empty set keeps its previous available set, otherwise its available set is
replaced wholesale. -/
def loadAvailablePairs (responses : List (String × Option (List String))) :
    List (String × Provider) → List (String × Provider) :=
  fun provs => provs.map fun e =>
    match alookup responses e.1 with
    | some (some pairs) =>
      if pairs.isEmpty then e else (e.1, { e.2 with availablePairs := pairs })
    | _ => e

/-- One provider's collection task inside `setPrices` (oracle.go lines
235-271), with the external `GetTickerPrices` and `GetCandlePrices` responses
passed in, keyed by pair symbol.  When either call fails the provider
contributes nothing; otherwise the task flattens the responses of its
subscribed pairs onto base symbols (the provider's slot exists, possibly
empty, whenever it has subscribed pairs). -/
def collectOne (prov : Provider)
    (tickerResp : Except String (List (String × TickerPrice)))
    (candleResp : Except String (List (String × List CandlePrice))) :
    Option (List (String × TickerPrice) × List (String × List CandlePrice)) :=
  match tickerResp, candleResp with
  | .ok prices, .ok candles =>
    let subscribed := MapPairsToSlice prov.subscribedPairs
    if subscribed.isEmpty then none
    else
      some
        (subscribed.foldl (fun m pair =>
            match alookup prices (pairKey pair) with
            | some tp => ainsert m pair.Base tp
            | none => m) [],
         subscribed.foldl (fun m pair =>
            match alookup candles (pairKey pair) with
            | some cp => ainsert m pair.Base cp
            | none => m) [])
  | _, _ => none

/-- The fan-out collection phase of `setPrices` (oracle.go lines 225-276):
merge every provider's contribution into the two aggregate maps; a failed
provider contributes no samples but does not abort the tick. -/
def collect (providers : List (String × Provider))
    (tickerResp : List (String × Except String (List (String × TickerPrice))))
    (candleResp : List (String × Except String (List (String × List CandlePrice)))) :
    AggregatedProviderPrices × AggregatedProviderCandles :=
  (providers.filterMap fun e =>
      (collectOne e.2 ((alookup tickerResp e.1).getD (.error "no response"))
          ((alookup candleResp e.1).getD (.error "no response"))).map fun r => (e.1, r.1),
   providers.filterMap fun e =>
      (collectOne e.2 ((alookup tickerResp e.1).getD (.error "no response"))
          ((alookup candleResp e.1).getD (.error "no response"))).map fun r => (e.1, r.2))

/-- The filtering and selection phase of `Oracle.setPrices` (oracle.go lines
278-327), as an explicit state transformer: each `return err` of the source
leaves the state exactly as received; `o.prices` is assigned only in the two
terminal success branches. -/
def setPricesCore (now : ℤ) (providerPrices : AggregatedProviderPrices)
    (providerCandles : AggregatedProviderCandles) (st : OracleState) :
    Option String × OracleState :=
  match filterCandleDeviations now providerCandles with
  | .error e => (some e, st)
  | .ok filteredCandles =>
    match ComputeTVWAP now filteredCandles with
    | .error e => (some e, st)
    | .ok tvwapPrices =>
      if tvwapPrices.isEmpty then
        match filterTickerDeviations providerPrices with
        | .error e => (some e, st)
        | .ok filteredProviderPrices =>
          match ComputeVWAP filteredProviderPrices with
          | .error e => (some e, st)
          | .ok vwapPrices => (none, { st with prices := vwapPrices })
      else (none, { st with prices := tvwapPrices })

/-- `Oracle.setPrices` (oracle.go lines 224-328): collection followed by
filtering and selection. -/
def setPricesSt (now : ℤ)
    (tickerResp : List (String × Except String (List (String × TickerPrice))))
    (candleResp : List (String × Except String (List (String × List CandlePrice))))
    (st : OracleState) : Option String × OracleState :=
  let agg := collect st.providers tickerResp candleResp
  setPricesCore now agg.1 agg.2 st

/-- `Oracle.tick` (oracle.go lines 442-448): just `setPrices`, propagating
its error. -/
def tick (now : ℤ)
    (tickerResp : List (String × Except String (List (String × TickerPrice))))
    (candleResp : List (String × Except String (List (String × List CandlePrice))))
    (st : OracleState) : Option String × OracleState :=
  setPricesSt now tickerResp candleResp st

/-- The three cases of the select statement in `Oracle.start` (oracle.go
lines 189-200). -/
inductive LoopBranch
  | ctxDone
  | tickTimer
  | reloadTimer
deriving DecidableEq, Repr

/-- `tickerTimeout = 1000 * time.Millisecond`, in milliseconds. -/
def tickerTimeoutMs : ℕ := 1000

/-- `availablePairsReload = 24 * time.Hour`, in milliseconds. -/
def availablePairsReloadMs : ℕ := 24 * 60 * 60 * 1000

/-- The select statement of `Oracle.start`: each iteration arms two fresh
timers (`time.After(tickerTimeout)` and `time.After(availablePairsReload)`);
the context case is ready immediately when the context is done, and otherwise
the case whose fresh timer has the strictly smaller delay fires first (the
two delays differ, so the choice among ready cases is deterministic). -/
def selectBranch (ctxIsDone : Bool) : LoopBranch :=
  if ctxIsDone then .ctxDone
  else if tickerTimeoutMs < availablePairsReloadMs then .tickTimer
  else .reloadTimer

/-- The state visible to the scheduling loop: the oracle state plus the
closer (umee `pkg/sync.Closer`, modelled as the flag of its done channel:
`Close` closes the channel, `Done` observes it). -/
structure LoopState where
  closerClosed : Bool
  oracle : OracleState
deriving DecidableEq, Repr

/-- The external inputs of one iteration of the scheduling loop. -/
structure IterInput where
  ctxIsDone : Bool
  now : ℤ
  tickerResp : List (String × Except String (List (String × TickerPrice)))
  candleResp : List (String × Except String (List (String × List CandlePrice)))
  reloadResp : List (String × Option (List String))
deriving DecidableEq, Repr

/-- One iteration of the for-select loop of `Oracle.start` (oracle.go lines
187-202).  The loop body never returns and never reads the closer's done
channel: the context case merely calls `closer.Close()`, the tick case runs
`tick` ignoring its error, the reload case runs `loadAvailablePairs`. -/
def startIter (st : LoopState) (inp : IterInput) : LoopState :=
  match selectBranch inp.ctxIsDone with
  | .ctxDone => { st with closerClosed := true }
  | .tickTimer =>
    { st with oracle := (tick inp.now inp.tickerResp inp.candleResp st.oracle).2 }
  | .reloadTimer =>
    { st with oracle :=
        { st.oracle with
          providers := loadAvailablePairs inp.reloadResp st.oracle.providers } }

/-- A finite run of the scheduling loop. -/
def runLoop (st : LoopState) (inps : List IterInput) : LoopState :=
  inps.foldl startIter st

/-- `Oracle.Stop` (oracle.go lines 181-184): `closer.Close()` closes the done
channel, and the subsequent receive on `closer.Done()` returns at once
because `Stop` itself just closed that channel; `Stop` therefore returns
immediately with the loop state otherwise untouched. -/
def Stop (st : LoopState) : LoopState :=
  { st with closerClosed := true }

/-- The operations that can touch the oracle state once `New` has returned:
a `SubscribeSymbols` call from a consumer, or one iteration of the
scheduling loop (which itself selects among the context, tick and reload
branches).  `loadAvailablePairs` is not separately triggerable: outside of
`New` it runs only inside the loop's reload branch. -/
inductive OracleOp
  | subscribeOp (baseSymbols : List String)
  | loopOp (inp : IterInput)

/-- Effect of one operation on the loop-visible state. -/
def applyOp (st : LoopState) : OracleOp → LoopState
  | .subscribeOp bs => { st with oracle := (SubscribeSymbols st.oracle bs).2 }
  | .loopOp inp => startIter st inp

/-- States reachable from `st` through a sequence of operations. -/
def runOps (st : LoopState) (ops : List OracleOp) : LoopState :=
  ops.foldl applyOp st

/-- The oracle state built by `New` (oracle.go lines 60-86): every provider
starts with empty available and subscribed maps (plus its adapter behavior
flag), `loadAvailablePairs` then runs once with the initial adapter
responses, and prices and subscribed base symbols start empty.  The
scheduling loop is spawned on this state; no subscription can happen
earlier. -/
def NewOracleState (providerFlags : List (String × Bool))
    (responses : List (String × Option (List String))) : OracleState :=
  { providers :=
      loadAvailablePairs responses
        (providerFlags.map fun e =>
          (e.1, { availablePairs := [], subscribedPairs := [], subscribeFails := e.2 })),
    prices := [],
    subscribedBaseSymbols := [] }

/-- The pairs a tick's collection polls from one provider (oracle.go line
233): the values of that provider's subscribed-pairs map. -/
def polledPairs (st : OracleState) (providerName : String) : List CurrencyPair :=
  match alookup st.providers providerName with
  | none => []
  | some prov => MapPairsToSlice prov.subscribedPairs

/-- The invariant claimed of the registry: every subscribed pair of every
provider is in that provider's current available set. -/
def SubscribedAvailable (st : OracleState) : Prop :=
  ∀ e ∈ st.providers, ∀ kp ∈ e.2.subscribedPairs, pairKey kp.2 ∈ e.2.availablePairs

instance (st : OracleState) : Decidable (SubscribedAvailable st) := by
  unfold SubscribedAvailable; infer_instance

/-! Concrete inputs used by counterexamples and witnesses. -/

/-- Three providers reporting one asset at prices 9.00, 9.05, 15.00 with
equal volume (the scenario of spec section 8). -/
def threeProviderTickers : AggregatedProviderPrices :=
  [("a", [("ATOM", ⟨9, 1⟩)]), ("b", [("ATOM", ⟨181 / 20, 1⟩)]),
   ("c", [("ATOM", ⟨15, 1⟩)])]

/-- A candle aggregate holding one entry whose candle slice is empty. -/
def emptySliceCandles : AggregatedProviderCandles := [("p", [("ATOM", [])])]

/-- One provider contributing one fresh candle. -/
def freshCandles : AggregatedProviderCandles := [("p", [("ATOM", [⟨10, 1, 900⟩])])]

/-- A subscribed one-provider oracle state with a previously published
price. -/
def exSubscribedState : OracleState :=
  { providers := [("p", ⟨["ATOMUSD"], [("ATOMUSD", ⟨"ATOM", "USD"⟩)], false⟩)],
    prices := [("OLD", 5)],
    subscribedBaseSymbols := ["ATOM"] }

/-- Ticker responses whose only sample carries zero volume. -/
def zeroVolumeTickerResp : List (String × Except String (List (String × TickerPrice))) :=
  [("p", .ok [("ATOMUSD", ⟨10, 0⟩)])]

/-- Ticker responses with one positive-volume sample. -/
def unitVolumeTickerResp : List (String × Except String (List (String × TickerPrice))) :=
  [("p", .ok [("ATOMUSD", ⟨10, 1⟩)])]

/-- Candle responses carrying no candles. -/
def emptyCandleResp : List (String × Except String (List (String × List CandlePrice))) :=
  [("p", .ok [])]

/-- Two providers, the second of which fails its subscription call. -/
def twoProviderState : OracleState :=
  { providers := [("a", ⟨["ATOMUSD"], [], false⟩), ("b", ⟨[], [], true⟩)],
    prices := [], subscribedBaseSymbols := [] }

/-- A loop iteration input with a live context and one ticker sample. -/
def exIterInput : IterInput :=
  { ctxIsDone := false, now := 0,
    tickerResp := unitVolumeTickerResp,
    candleResp := emptyCandleResp, reloadResp := [] }

/-! Association list lemmas. -/

theorem alookup_ainsert (m : List (String × α)) (k : String) (v : α) (key : String) :
    alookup (ainsert m k v) key = if k = key then some v else alookup m key := by
  induction m with
  | nil => simp [ainsert, alookup]
  | cons e rest ih =>
    obtain ⟨k1, v1⟩ := e
    simp only [ainsert]
    by_cases h1 : k1 = k
    · subst h1
      by_cases h2 : k1 = key
      · subst h2; simp [alookup]
      · simp [alookup, h2]
    · simp only [if_neg h1, alookup]
      by_cases h2 : k1 = key
      · subst h2
        have hk : ¬k = k1 := fun h => h1 h.symm
        simp [hk]
      · simp [h2, ih]

theorem alookup_eq_none_iff (m : List (String × α)) (p : String) :
    alookup m p = none ↔ p ∉ akeys m := by
  induction m with
  | nil => simp [alookup, akeys]
  | cons e rest ih =>
    obtain ⟨k, v⟩ := e
    by_cases h : k = p
    · subst h; simp [alookup, akeys]
    · simp [alookup, akeys, h, ih, Ne.symm h]

theorem alookup_mem {m : List (String × α)} {p : String} {v : α}
    (h : alookup m p = some v) : (p, v) ∈ m := by
  induction m with
  | nil => simp [alookup] at h
  | cons e rest ih =>
    obtain ⟨k, w⟩ := e
    by_cases hk : k = p
    · subst hk
      have h2 : w = v := by simpa [alookup] using h
      subst h2; exact List.mem_cons_self _ _
    · simp only [alookup, if_neg hk] at h
      exact List.mem_cons_of_mem _ (ih h)

theorem alookup_isSome_of_mem_akeys {m : List (String × α)} {p : String}
    (h : p ∈ akeys m) : (alookup m p).isSome := by
  cases hl : alookup m p with
  | none => exact absurd h ((alookup_eq_none_iff m p).mp hl)
  | some v => rfl

theorem alookup_map_keyfun (l : List String) (f : String → γ) (b : String) :
    alookup (l.map fun x => (x, f x)) b = if b ∈ l then some (f b) else none := by
  induction l with
  | nil => simp [alookup]
  | cons x rest ih =>
    by_cases h : x = b
    · subst h; simp [alookup]
    · simp [alookup, h, ih, Ne.symm h]

theorem alookup_map_pairfun (l : List (String × β)) (g : String → γ) (b : String) :
    alookup (l.map fun t => (t.1, g t.1)) b =
      if (alookup l b).isSome then some (g b) else none := by
  induction l with
  | nil => simp [alookup]
  | cons t rest ih =>
    obtain ⟨k, v⟩ := t
    by_cases h : k = b
    · subst h; simp [alookup]
    · simp [alookup, h, ih]

theorem akeys_filterMap_sub (F : String × List (String × β) → Option (String × γ))
    (hF : ∀ e c, F e = some c → c.1 = e.1) (m : List (String × List (String × β))) :
    akeys (m.filterMap F) ⊆ akeys m := by
  induction m with
  | nil => simp [akeys]
  | cons e rest ih =>
    intro a ha
    simp only [List.filterMap_cons] at ha
    cases hFe : F e with
    | none =>
      rw [hFe] at ha
      exact List.mem_cons_of_mem _ (ih ha)
    | some c =>
      rw [hFe] at ha
      simp only [akeys, List.map_cons, List.mem_cons] at ha ⊢
      rcases ha with h | h
      · exact Or.inl (h.trans (hF e c hFe))
      · exact Or.inr (ih h)

theorem akeys_filter_sub (q : String × β → Bool) (ts : List (String × β)) :
    akeys (ts.filter q) ⊆ akeys ts := by
  induction ts with
  | nil => simp
  | cons t rest ih =>
    intro a ha
    simp only [List.filter_cons] at ha
    by_cases hq : q t
    · rw [if_pos hq] at ha
      simp only [akeys, List.map_cons, List.mem_cons] at ha ⊢
      rcases ha with h | h
      · exact Or.inl h
      · exact Or.inr (ih h)
    · rw [if_neg hq] at ha
      exact List.mem_cons_of_mem _ (ih ha)

theorem alookup_filter (q : String × β → Bool) (ts : List (String × β))
    (hnd : WFmap ts) (b : String) :
    alookup (ts.filter q) b =
      match alookup ts b with
      | none => none
      | some v => if q (b, v) then some v else none := by
  induction ts with
  | nil => simp [alookup]
  | cons t rest ih =>
    obtain ⟨k, v⟩ := t
    have hnd2 : WFmap rest := (List.nodup_cons.mp hnd).2
    by_cases hk : k = b
    · subst hk
      have hnotin : k ∉ akeys rest := (List.nodup_cons.mp hnd).1
      by_cases hq : q (k, v)
      · simp [List.filter_cons, hq, alookup]
      · have hnone : alookup (rest.filter q) k = none := by
          rw [alookup_eq_none_iff]
          exact fun h => hnotin (akeys_filter_sub q rest h)
        simp [List.filter_cons, hq, alookup, hnone]
    · by_cases hq : q (k, v)
      · simp only [List.filter_cons, hq, if_pos, alookup, if_neg hk]
        exact ih hnd2
      · simp only [List.filter_cons, hq, Bool.false_eq_true, if_neg, alookup, if_neg hk]
        exact ih hnd2

theorem alookup_map_entry (f : String × β → γ) (m : List (String × β)) (p : String) :
    alookup (m.map fun e => (e.1, f e)) p = (alookup m p).map fun v => f (p, v) := by
  induction m with
  | nil => simp [alookup]
  | cons e rest ih =>
    obtain ⟨k, v⟩ := e
    by_cases h : k = p
    · subst h; simp [alookup]
    · simp [alookup, h, ih]

/-! Lemmas about the modelled statistics collaborator. -/

theorem sd_dev_lookup (values : List (String × List (String × ℚ))) (b : String) :
    alookup (StandardDeviation values).1 b =
      if b ∈ sdBases values then some (sdDev values b) else none :=
  alookup_map_keyfun _ _ b

theorem sd_mean_lookup (values : List (String × List (String × ℚ))) (b : String) :
    alookup (StandardDeviation values).2 b =
      if b ∈ sdBases values then some (sdMean values b) else none :=
  alookup_map_keyfun _ _ b

theorem sd_dev_lookup_of_few (values : List (String × List (String × ℚ)))
    (b : String) (h : (valuesFor values b).length < 2) :
    alookup (StandardDeviation values).1 b = none := by
  rw [sd_dev_lookup, if_neg]
  intro hmem
  have h2 := (List.mem_filter.mp hmem).2
  have h3 : 2 ≤ (valuesFor values b).length := of_decide_eq_true h2
  omega

theorem sd_mean_isSome_of_dev {values : List (String × List (String × ℚ))}
    {b : String} {d : ℚ} (h : alookup (StandardDeviation values).1 b = some d) :
    alookup (StandardDeviation values).2 b = some (sdMean values b) := by
  rw [sd_mean_lookup, if_pos]
  by_contra hmem
  rw [sd_dev_lookup, if_neg hmem] at h
  exact Option.noConfusion h

theorem keepSample_iff (devs means : List (String × ℚ)) (b : String) (v : ℚ) :
    keepSample devs means b v = true ↔
      (alookup devs b = none ∨
        ∃ d, alookup devs b = some d ∧
          (alookup means b).getD 0 - d * deviationThreshold ≤ v ∧
          v ≤ (alookup means b).getD 0 + d * deviationThreshold) := by
  cases h : alookup devs b with
  | none => simp [keepSample, h]
  | some d => simp [keepSample, h]

/-! Lemmas about the shape shared by the two deviation filters. -/

theorem alookup_filterShape {β γ : Type} (K : String × β → Bool)
    (G : String → List (String × β) → γ)
    (m : List (String × List (String × β))) (hnd : WFmap m) (p : String) :
    alookup (m.filterMap fun e =>
        if (e.2.filter K).isEmpty then none
        else some (e.1, G e.1 (e.2.filter K))) p =
      match alookup m p with
      | none => none
      | some ts =>
        if (ts.filter K).isEmpty then none else some (G p (ts.filter K)) := by
  induction m with
  | nil => rfl
  | cons e rest ih =>
    obtain ⟨k, ts⟩ := e
    have hnd1 : k ∉ akeys rest := (List.nodup_cons.mp hnd).1
    have hnd2 : WFmap rest := (List.nodup_cons.mp hnd).2
    by_cases hk : k = p
    · subst hk
      by_cases he : (ts.filter K).isEmpty
      · have hnone : alookup (rest.filterMap fun e =>
            if (e.2.filter K).isEmpty then none
            else some (e.1, G e.1 (e.2.filter K))) k = none := by
          rw [alookup_eq_none_iff]
          intro hmem
          refine hnd1 (akeys_filterMap_sub _ ?_ rest hmem)
          intro e c hc
          by_cases h2 : (e.2.filter K).isEmpty
          · rw [if_pos h2] at hc; exact Option.noConfusion hc
          · rw [if_neg h2] at hc
            cases hc.symm with
            | refl => rfl
        simp [List.filterMap_cons, he, alookup, hnone]
      · simp [List.filterMap_cons, he, alookup]
    · by_cases he : (ts.filter K).isEmpty
      · rw [List.filterMap_cons]
        simp only [he, if_pos]
        rw [ih hnd2]
        simp [alookup, hk]
      · rw [List.filterMap_cons]
        simp only [he, Bool.false_eq_true, if_neg]
        simp only [alookup, if_neg hk]
        rw [ih hnd2]

theorem filter_isEmpty_forall {β : Type} {K : String × β → Bool}
    {ts : List (String × β)} (h : (ts.filter K).isEmpty = true) :
    ∀ x ∈ ts, K x = false := by
  intro x hx
  rw [List.isEmpty_iff] at h
  have := List.filter_eq_nil_iff.mp h x hx
  simpa using this

theorem lookup2_filterTicker (prices : AggregatedProviderPrices) (hwf : WF2 prices)
    (fp : AggregatedProviderPrices) (hfp : filterTickerDeviations prices = .ok fp)
    (p b : String) :
    lookup2 fp p b =
      match lookup2 prices p b with
      | none => none
      | some tp =>
        if keepSample (StandardDeviation (toPriceMap prices)).1
            (StandardDeviation (toPriceMap prices)).2 b tp.price
        then some tp else none := by
  have hfp2 : fp = prices.filterMap fun e =>
      if (e.2.filter fun t => keepSample (StandardDeviation (toPriceMap prices)).1
          (StandardDeviation (toPriceMap prices)).2 t.1 t.2.price).isEmpty
      then none
      else some (e.1, e.2.filter fun t =>
        keepSample (StandardDeviation (toPriceMap prices)).1
          (StandardDeviation (toPriceMap prices)).2 t.1 t.2.price) := by
    have h2 : (Except.ok (prices.filterMap fun e =>
        if (e.2.filter fun t => keepSample (StandardDeviation (toPriceMap prices)).1
            (StandardDeviation (toPriceMap prices)).2 t.1 t.2.price).isEmpty
        then none
        else some (e.1, e.2.filter fun t =>
          keepSample (StandardDeviation (toPriceMap prices)).1
            (StandardDeviation (toPriceMap prices)).2 t.1 t.2.price)) :
          Except String AggregatedProviderPrices) = .ok fp := hfp
    exact (Except.ok.inj h2).symm
  have hout := alookup_filterShape
    (fun t => keepSample (StandardDeviation (toPriceMap prices)).1
      (StandardDeviation (toPriceMap prices)).2 t.1 t.2.price)
    (fun _ kept => kept) prices hwf.1 p
  cases hp : alookup prices p with
  | none =>
    simp only [hp] at hout
    have h1 : alookup fp p = none := by rw [hfp2]; exact hout
    simp [lookup2, h1, hp]
  | some ts =>
    simp only [hp] at hout
    have hts : WFmap ts := hwf.2 (p, ts) (alookup_mem hp)
    by_cases he : (ts.filter fun t => keepSample (StandardDeviation (toPriceMap prices)).1
        (StandardDeviation (toPriceMap prices)).2 t.1 t.2.price).isEmpty
    · rw [if_pos he] at hout
      have h1 : alookup fp p = none := by rw [hfp2]; exact hout
      simp only [lookup2, h1, hp]
      cases hb : alookup ts b with
      | none => rfl
      | some tp =>
        have hk := filter_isEmpty_forall he (b, tp) (alookup_mem hb)
        simp [hk]
    · rw [if_neg he] at hout
      have h1 : alookup fp p = some (ts.filter fun t =>
          keepSample (StandardDeviation (toPriceMap prices)).1
            (StandardDeviation (toPriceMap prices)).2 t.1 t.2.price) := by
        rw [hfp2]; exact hout
      simp only [lookup2, h1, hp]
      rw [alookup_filter _ ts hts b]
      cases hb : alookup ts b with
      | none => rfl
      | some tp => rfl

/-! Lemmas about the candle filter. -/

theorem tvwapsLoop_eq (now : ℤ) (candles : AggregatedProviderCandles) :
    tvwapsLoop now candles = .ok (tvwapsOfAll now candles) := by
  induction candles with
  | nil => rfl
  | cons e rest ih => simp [tvwapsLoop, ComputeTVWAP, tvwapsOfAll, tvwapOf, ih]

theorem akeys_filterMap_strings_sublist (F : String → Option (String × γ))
    (hF : ∀ b c, F b = some c → c.1 = b) (l : List String) :
    (akeys (l.filterMap F)).Sublist l := by
  induction l with
  | nil => simp [akeys]
  | cons x rest ih =>
    rw [List.filterMap_cons]
    cases hFx : F x with
    | none => exact ih.cons x
    | some c =>
      have : c.1 = x := hF x c hFx
      simp only [akeys, List.map_cons, this]
      exact ih.cons₂ x

theorem WFmap_tvwapAll (now : ℤ) (candles : AggregatedProviderCandles) :
    WFmap (tvwapAll now candles) := by
  have hs := akeys_filterMap_strings_sublist
    (fun b =>
      let cs := (candlesFor candles b).filter fun c => now - tvwapCandlePeriod < c.timeStamp
      let wsum := (cs.map fun c =>
        c.volume * ((c.timeStamp - (now - tvwapCandlePeriod) : ℤ) : ℚ)).sum
      if wsum = 0 then none
      else some (b, (cs.map fun c =>
        c.price * (c.volume * ((c.timeStamp - (now - tvwapCandlePeriod) : ℤ) : ℚ))).sum / wsum))
    (by
      intro b c hc
      simp only at hc
      by_cases h0 : ((((candlesFor candles b).filter fun c =>
          now - tvwapCandlePeriod < c.timeStamp).map fun c =>
          c.volume * ((c.timeStamp - (now - tvwapCandlePeriod) : ℤ) : ℚ)).sum) = 0
      · rw [if_pos h0] at hc; exact Option.noConfusion hc
      · rw [if_neg h0] at hc
        cases hc.symm with
        | refl => rfl)
    (allBases candles)
  exact hs.nodup (List.nodup_dedup _)

theorem WFmap_tvwapOf (now : ℤ) (e : String × List (String × List CandlePrice)) :
    WFmap (tvwapOf now e) :=
  WFmap_tvwapAll now [e]

theorem mem_allBases_single (e : String × List (String × List CandlePrice)) (b : String) :
    b ∈ allBases [e] ↔ b ∈ akeys e.2 := by
  simp [allBases]

theorem akeys_tvwapAll_sub (now : ℤ) (candles : AggregatedProviderCandles) :
    akeys (tvwapAll now candles) ⊆ allBases candles := by
  intro b hb
  exact (akeys_filterMap_strings_sublist _
    (by
      intro x c hc
      simp only at hc
      by_cases h0 : ((((candlesFor candles x).filter fun c =>
          now - tvwapCandlePeriod < c.timeStamp).map fun c =>
          c.volume * ((c.timeStamp - (now - tvwapCandlePeriod) : ℤ) : ℚ)).sum) = 0
      · rw [if_pos h0] at hc; exact Option.noConfusion hc
      · rw [if_neg h0] at hc
        cases hc.symm with
        | refl => rfl)
    (allBases candles)).subset hb

theorem akeys_tvwapOf_sub (now : ℤ) (e : String × List (String × List CandlePrice)) :
    akeys (tvwapOf now e) ⊆ akeys e.2 := fun b hb =>
  (mem_allBases_single e b).mp (akeys_tvwapAll_sub now [e] hb)

theorem WFmap_tvwapsOfAll (now : ℤ) (candles : AggregatedProviderCandles)
    (hwf : WFmap candles) : WFmap (tvwapsOfAll now candles) := by
  unfold WFmap akeys tvwapsOfAll
  rw [List.map_map]
  exact hwf

theorem alookup_tvwapsOfAll (now : ℤ) (candles : AggregatedProviderCandles) (p : String) :
    alookup (tvwapsOfAll now candles) p =
      (alookup candles p).map fun ts => tvwapOf now (p, ts) := by
  unfold tvwapsOfAll
  exact alookup_map_entry (fun e => tvwapOf now e) candles p

theorem alookup_map_copyfun (l : List (String × ℚ)) (candles : AggregatedProviderCandles)
    (p b : String) :
    alookup (l.map fun t => (t.1, (lookup2 candles p t.1).getD [])) b =
      if (alookup l b).isSome then some ((lookup2 candles p b).getD []) else none := by
  induction l with
  | nil => simp [alookup]
  | cons t rest ih =>
    obtain ⟨k, v⟩ := t
    by_cases h : k = b
    · subst h; simp [alookup]
    · simp [alookup, h, ih]

theorem lookup2_filterCandle (now : ℤ) (candles : AggregatedProviderCandles)
    (hwf : WFmap candles)
    (fc : AggregatedProviderCandles) (hfc : filterCandleDeviations now candles = .ok fc)
    (p b : String) :
    lookup2 fc p b =
      match lookup2 (tvwapsOfAll now candles) p b with
      | none => none
      | some s =>
        if keepSample (StandardDeviation (tvwapsOfAll now candles)).1
            (StandardDeviation (tvwapsOfAll now candles)).2 b s
        then some ((lookup2 candles p b).getD []) else none := by
  have h0 : filterCandleDeviations now candles =
      .ok ((tvwapsOfAll now candles).filterMap fun e =>
        if (e.2.filter fun t => keepSample (StandardDeviation (tvwapsOfAll now candles)).1
            (StandardDeviation (tvwapsOfAll now candles)).2 t.1 t.2).isEmpty
        then none
        else some (e.1, (e.2.filter fun t =>
            keepSample (StandardDeviation (tvwapsOfAll now candles)).1
              (StandardDeviation (tvwapsOfAll now candles)).2 t.1 t.2).map
          fun t => (t.1, (lookup2 candles e.1 t.1).getD []))) := by
    unfold filterCandleDeviations
    rw [tvwapsLoop_eq]
  have hfc2 : fc = (tvwapsOfAll now candles).filterMap fun e =>
      if (e.2.filter fun t => keepSample (StandardDeviation (tvwapsOfAll now candles)).1
          (StandardDeviation (tvwapsOfAll now candles)).2 t.1 t.2).isEmpty
      then none
      else some (e.1, (e.2.filter fun t =>
          keepSample (StandardDeviation (tvwapsOfAll now candles)).1
            (StandardDeviation (tvwapsOfAll now candles)).2 t.1 t.2).map
        fun t => (t.1, (lookup2 candles e.1 t.1).getD [])) := by
    rw [h0] at hfc
    exact (Except.ok.inj hfc).symm
  have hnd := WFmap_tvwapsOfAll now candles hwf
  have hout := alookup_filterShape
    (fun t => keepSample (StandardDeviation (tvwapsOfAll now candles)).1
      (StandardDeviation (tvwapsOfAll now candles)).2 t.1 t.2)
    (fun p2 kept => kept.map fun t => (t.1, (lookup2 candles p2 t.1).getD []))
    (tvwapsOfAll now candles) hnd p
  cases hp : alookup (tvwapsOfAll now candles) p with
  | none =>
    simp only [hp] at hout
    have h1 : alookup fc p = none := by rw [hfc2]; exact hout
    simp [lookup2, h1, hp]
  | some tvs =>
    simp only [hp] at hout
    have htvs : WFmap tvs := by
      have h3 := alookup_tvwapsOfAll now candles p
      rw [hp] at h3
      cases hcp : alookup candles p with
      | none => rw [hcp] at h3; exact absurd h3 (by simp)
      | some ts =>
        rw [hcp] at h3
        have h4 : tvs = tvwapOf now (p, ts) := by simpa using h3
        rw [h4]
        exact WFmap_tvwapOf now (p, ts)
    by_cases he : (tvs.filter fun t =>
        keepSample (StandardDeviation (tvwapsOfAll now candles)).1
          (StandardDeviation (tvwapsOfAll now candles)).2 t.1 t.2).isEmpty
    · rw [if_pos he] at hout
      have h1 : alookup fc p = none := by rw [hfc2]; exact hout
      simp only [lookup2, h1, hp]
      cases hb : alookup tvs b with
      | none => rfl
      | some s =>
        have hk := filter_isEmpty_forall he (b, s) (alookup_mem hb)
        simp [hk]
    · rw [if_neg he] at hout
      have h1 : alookup fc p = some ((tvs.filter fun t =>
          keepSample (StandardDeviation (tvwapsOfAll now candles)).1
            (StandardDeviation (tvwapsOfAll now candles)).2 t.1 t.2).map
        fun t => (t.1, (lookup2 candles p t.1).getD [])) := by
        rw [hfc2]; exact hout
      have hL : lookup2 fc p b = alookup ((tvs.filter fun t =>
          keepSample (StandardDeviation (tvwapsOfAll now candles)).1
            (StandardDeviation (tvwapsOfAll now candles)).2 t.1 t.2).map
        fun t => (t.1, (lookup2 candles p t.1).getD [])) b := by
        unfold lookup2
        rw [h1]
        rfl
      rw [hL, alookup_map_copyfun, alookup_filter _ tvs htvs b]
      simp only [lookup2, hp]
      cases hb : alookup tvs b with
      | none => simp
      | some s =>
        by_cases hk : keepSample (StandardDeviation (tvwapsOfAll now candles)).1
            (StandardDeviation (tvwapsOfAll now candles)).2 b s
        · simp [hk]
        · simp [hk]

theorem lookup2_tvwaps_to_candles {now : ℤ} {candles : AggregatedProviderCandles}
    {p b : String} {s : ℚ} (h : lookup2 (tvwapsOfAll now candles) p b = some s) :
    ∃ cs, lookup2 candles p b = some cs := by
  have h3 := alookup_tvwapsOfAll now candles p
  cases hcp : alookup candles p with
  | none =>
    rw [hcp] at h3
    simp only [Option.map_none'] at h3
    simp [lookup2, h3] at h
  | some ts =>
    rw [hcp] at h3
    simp only [Option.map_some'] at h3
    simp only [lookup2, h3, hcp] at h ⊢
    have hb : b ∈ akeys (tvwapOf now (p, ts)) := by
      by_contra hnb
      rw [← alookup_eq_none_iff] at hnb
      rw [hnb] at h
      exact Option.noConfusion h
    have hb2 : b ∈ akeys ts := akeys_tvwapOf_sub now (p, ts) hb
    have := alookup_isSome_of_mem_akeys hb2
    cases hts : alookup ts b with
    | none => rw [hts] at this; exact absurd this (by simp)
    | some cs => exact ⟨cs, rfl⟩

/-! Lemmas about the selection phase of setPrices. -/

theorem setPricesCore_providers (now : ℤ) (pp : AggregatedProviderPrices)
    (pc : AggregatedProviderCandles) (st : OracleState) :
    (setPricesCore now pp pc st).2.providers = st.providers := by
  unfold setPricesCore
  cases h1 : filterCandleDeviations now pc with
  | error e => rfl
  | ok fc =>
    simp only [ComputeTVWAP]
    by_cases hemp : (tvwapAll now fc).isEmpty
    · rw [if_pos hemp]
      cases h2 : filterTickerDeviations pp with
      | error e => simp [h2]
      | ok fpp =>
        cases h3 : ComputeVWAP fpp with
        | error e => simp [h2, h3]
        | ok vw => simp [h2, h3]
    · rw [if_neg hemp]

theorem setPricesCore_subscribed (now : ℤ) (pp : AggregatedProviderPrices)
    (pc : AggregatedProviderCandles) (st : OracleState) :
    (setPricesCore now pp pc st).2.subscribedBaseSymbols = st.subscribedBaseSymbols := by
  unfold setPricesCore
  cases h1 : filterCandleDeviations now pc with
  | error e => rfl
  | ok fc =>
    simp only [ComputeTVWAP]
    by_cases hemp : (tvwapAll now fc).isEmpty
    · rw [if_pos hemp]
      cases h2 : filterTickerDeviations pp with
      | error e => simp [h2]
      | ok fpp =>
        cases h3 : ComputeVWAP fpp with
        | error e => simp [h2, h3]
        | ok vw => simp [h2, h3]
    · rw [if_neg hemp]

theorem setPricesCore_error {now : ℤ} {pp : AggregatedProviderPrices}
    {pc : AggregatedProviderCandles} {st : OracleState} {e : String} {st2 : OracleState}
    (h : setPricesCore now pp pc st = (some e, st2)) : st2 = st := by
  unfold setPricesCore at h
  cases h1 : filterCandleDeviations now pc with
  | error e2 =>
    rw [h1] at h
    injection h with ha hb
    exact hb.symm
  | ok fc =>
    rw [h1] at h
    simp only [ComputeTVWAP] at h
    by_cases hemp : (tvwapAll now fc).isEmpty
    · rw [if_pos hemp] at h
      cases h2 : filterTickerDeviations pp with
      | error e3 =>
        simp only [h2] at h
        injection h with ha hb
        exact hb.symm
      | ok fpp =>
        simp only [h2] at h
        cases h3 : ComputeVWAP fpp with
        | error e4 =>
          simp only [h3] at h
          injection h with ha hb
          exact hb.symm
        | ok vw =>
          simp only [h3] at h
          injection h with ha hb
          exact absurd ha (by simp)
    · rw [if_neg hemp] at h
      injection h with ha hb
      exact absurd ha (by simp)

/-! Lemmas about GetPrices. -/

theorem getPricesLoop_ok (prices : List (String × ℚ)) :
    ∀ (bs : List String) (acc m : List (String × ℚ)),
      getPricesLoop prices bs acc = .ok m →
      ∀ b, alookup m b = if b ∈ bs then alookup prices b else alookup acc b := by
  intro bs
  induction bs with
  | nil =>
    intro acc m h b
    have hm : acc = m := by simpa [getPricesLoop] using h
    subst hm
    simp
  | cons x rest ih =>
    intro acc m h b
    cases hx : alookup prices x with
    | none => simp [getPricesLoop, hx] at h
    | some p =>
      simp only [getPricesLoop, hx] at h
      have h2 := ih (ainsert acc x p) m h
      by_cases hb : b ∈ rest
      · rw [h2 b]
        simp [hb, List.mem_cons]
      · by_cases hbx : b = x
        · subst hbx
          rw [h2 b]
          simp [hb, alookup_ainsert, hx]
        · rw [h2 b]
          simp [hb, hbx, alookup_ainsert, Ne.symm hbx]

theorem getPricesLoop_ok_isSome (prices : List (String × ℚ)) :
    ∀ (bs : List String) (acc m : List (String × ℚ)),
      getPricesLoop prices bs acc = .ok m →
      ∀ b ∈ bs, (alookup prices b).isSome := by
  intro bs
  induction bs with
  | nil => intro acc m _ b hb; simp at hb
  | cons x rest ih =>
    intro acc m h b hb
    cases hx : alookup prices x with
    | none => simp [getPricesLoop, hx] at h
    | some p =>
      simp only [getPricesLoop, hx] at h
      rcases List.mem_cons.mp hb with h2 | h2
      · subst h2; simp [hx]
      · exact ih (ainsert acc x p) m h b h2

theorem getPricesLoop_err (prices : List (String × ℚ)) :
    ∀ (bs : List String) (acc : List (String × ℚ)) (e : String),
      getPricesLoop prices bs acc = .error e →
      ∃ b, b ∈ bs ∧ alookup prices b = none ∧ e = "error getting price for " ++ b := by
  intro bs
  induction bs with
  | nil => intro acc e h; simp [getPricesLoop] at h
  | cons x rest ih =>
    intro acc e h
    cases hx : alookup prices x with
    | none =>
      simp only [getPricesLoop, hx] at h
      have he : e = "error getting price for " ++ x := by
        have := h
        simp only [Except.error.injEq] at this
        exact this.symm
      exact ⟨x, List.mem_cons_self x rest, hx, he⟩
    | some p =>
      simp only [getPricesLoop, hx] at h
      obtain ⟨b, hb, hn, he⟩ := ih (ainsert acc x p) e h
      exact ⟨b, List.mem_cons_of_mem _ hb, hn, he⟩

/-! Lemmas about the subscription registry. -/

theorem mem_ainsert {m : List (String × α)} {k : String} {v : α} {kp : String × α}
    (h : kp ∈ ainsert m k v) : kp ∈ m ∨ kp = (k, v) := by
  induction m with
  | nil =>
    simp only [ainsert, List.mem_singleton] at h
    exact Or.inr h
  | cons e rest ih =>
    obtain ⟨k1, v1⟩ := e
    by_cases h1 : k1 = k
    · simp only [ainsert, if_pos h1] at h
      rcases List.mem_cons.mp h with h2 | h2
      · exact Or.inr h2
      · exact Or.inl (List.mem_cons_of_mem _ h2)
    · simp only [ainsert, if_neg h1] at h
      rcases List.mem_cons.mp h with h2 | h2
      · exact Or.inl (h2 ▸ List.mem_cons_self _ _)
      · rcases ih h2 with h3 | h3
        · exact Or.inl (List.mem_cons_of_mem _ h3)
        · exact Or.inr h3

theorem mem_foldl_ainsert {l : List CurrencyPair} :
    ∀ {m0 : List (String × CurrencyPair)} {kp : String × CurrencyPair},
      kp ∈ l.foldl (fun m q => ainsert m (pairKey q) q) m0 →
      kp ∈ m0 ∨ ∃ q ∈ l, kp = (pairKey q, q) := by
  induction l with
  | nil => intro m0 kp h; exact Or.inl h
  | cons q rest ih =>
    intro m0 kp h
    rw [List.foldl_cons] at h
    rcases ih h with h2 | h2
    · rcases mem_ainsert h2 with h3 | h3
      · exact Or.inl h3
      · exact Or.inr ⟨q, List.mem_cons_self _ _, h3⟩
    · obtain ⟨q2, hq2, he⟩ := h2
      exact Or.inr ⟨q2, List.mem_cons_of_mem _ hq2, he⟩

theorem subscribeProviders_error (cps : List CurrencyPair) :
    ∀ (provs : List (String × Provider)) (e : String),
      (subscribeProviders cps provs).1 = some e →
      ∃ i name prov post,
        provs.drop i = (name, prov) :: post ∧ prov.subscribeFails = true ∧
        (subscribeProviders cps provs).2.drop i = (name, prov) :: post := by
  intro provs
  induction provs with
  | nil => intro e h; simp [subscribeProviders] at h
  | cons np rest ih =>
    intro e h
    obtain ⟨name, prov⟩ := np
    by_cases hf : prov.subscribeFails = true
    · refine ⟨0, name, prov, rest, rfl, hf, ?_⟩
      simp [subscribeProviders, hf]
    · simp only [subscribeProviders, if_neg hf] at h ⊢
      obtain ⟨i, n2, p2, post, hd, hf2, hd2⟩ := ih e h
      refine ⟨i + 1, n2, p2, post, ?_, hf2, ?_⟩
      · simpa [List.drop_succ_cons] using hd
      · simpa [List.drop_succ_cons] using hd2

theorem subscribeProviders_inv (cps : List CurrencyPair) :
    ∀ (provs : List (String × Provider)),
      (∀ e ∈ provs, ∀ kp ∈ e.2.subscribedPairs, pairKey kp.2 ∈ e.2.availablePairs) →
      ∀ e ∈ (subscribeProviders cps provs).2,
        ∀ kp ∈ e.2.subscribedPairs, pairKey kp.2 ∈ e.2.availablePairs := by
  intro provs
  induction provs with
  | nil => intro h e he; simp [subscribeProviders] at he
  | cons np rest ih =>
    intro hinv e he
    obtain ⟨name, prov⟩ := np
    by_cases hf : prov.subscribeFails = true
    · simp only [subscribeProviders, if_pos hf] at he
      exact hinv e he
    · simp only [subscribeProviders, if_neg hf] at he
      rcases List.mem_cons.mp he with h2 | h2
      · subst h2
        intro kp hkp
        simp only [recordPairs] at hkp
        rcases mem_foldl_ainsert hkp with h3 | h3
        · exact hinv (name, prov) (List.mem_cons_self _ _) kp h3
        · obtain ⟨q, hq, he2⟩ := h3
          have hq2 := (List.mem_filter.mp hq).2
          have hcont : prov.availablePairs.contains (pairKey q) = true := by
            have hsplit := (Bool.and_eq_true _ _).mp hq2
            exact hsplit.2
          have hmem : pairKey q ∈ prov.availablePairs := by
            simpa using hcont
          rw [he2]
          simpa using hmem
      · exact ih (fun e2 he2 => hinv e2 (List.mem_cons_of_mem _ he2)) e h2

theorem subscribeSymbolsLoop_inv :
    ∀ (bs : List String) (st : OracleState), SubscribedAvailable st →
      SubscribedAvailable (subscribeSymbolsLoop bs st).2 := by
  intro bs
  induction bs with
  | nil => intro st h; exact h
  | cons b rest ih =>
    intro st h
    simp only [subscribeSymbolsLoop]
    by_cases hc : st.subscribedBaseSymbols.contains b = true
    · rw [if_pos hc]; exact ih st h
    · rw [if_neg hc]
      cases hr : (subscribeProviders (GetStablecoinsCurrencyPair b) st.providers).1 with
      | some e =>
        simp only [hr]
        intro e2 he2 kp hkp
        exact subscribeProviders_inv _ st.providers h e2 he2 kp hkp
      | none =>
        simp only [hr]
        exact ih _ (fun e2 he2 => subscribeProviders_inv _ st.providers h e2 he2)

/-! Lemmas about the scheduling loop. -/

theorem selectBranch_false : selectBranch false = LoopBranch.tickTimer := by decide

theorem selectBranch_true : selectBranch true = LoopBranch.ctxDone := rfl

theorem startIter_availablePairs (st : LoopState) (inp : IterInput) :
    ((startIter st inp).oracle.providers.map fun e => (e.1, e.2.availablePairs)) =
      st.oracle.providers.map fun e => (e.1, e.2.availablePairs) := by
  unfold startIter
  cases hc : inp.ctxIsDone with
  | true => rw [selectBranch_true]
  | false =>
    rw [selectBranch_false]
    have hp : (tick inp.now inp.tickerResp inp.candleResp st.oracle).2.providers =
        st.oracle.providers :=
      setPricesCore_providers inp.now
        (collect st.oracle.providers inp.tickerResp inp.candleResp).1
        (collect st.oracle.providers inp.tickerResp inp.candleResp).2 st.oracle
    simp only [hp]

/-! Lemmas about the reachable states of the oracle lifecycle. -/

theorem applyOp_inv (st : LoopState) (op : OracleOp)
    (h : SubscribedAvailable st.oracle) : SubscribedAvailable (applyOp st op).oracle := by
  cases op with
  | subscribeOp bs => exact subscribeSymbolsLoop_inv bs st.oracle h
  | loopOp inp =>
    show SubscribedAvailable (startIter st inp).oracle
    unfold startIter
    cases hc : inp.ctxIsDone with
    | true =>
      rw [selectBranch_true]
      exact h
    | false =>
      rw [selectBranch_false]
      intro e he kp hkp
      have hp : (tick inp.now inp.tickerResp inp.candleResp st.oracle).2.providers =
          st.oracle.providers :=
        setPricesCore_providers inp.now
          (collect st.oracle.providers inp.tickerResp inp.candleResp).1
          (collect st.oracle.providers inp.tickerResp inp.candleResp).2 st.oracle
      rw [hp] at he
      exact h e he kp hkp

theorem runOps_inv (ops : List OracleOp) :
    ∀ st : LoopState, SubscribedAvailable st.oracle →
      SubscribedAvailable (runOps st ops).oracle := by
  induction ops with
  | nil => intro st h; exact h
  | cons op rest ih =>
    intro st h
    exact ih (applyOp st op) (applyOp_inv st op h)

theorem loadAvailablePairs_subscribed (rs : List (String × Option (List String)))
    (provs : List (String × Provider)) :
    ∀ e ∈ loadAvailablePairs rs provs,
      ∃ e0 ∈ provs, e.2.subscribedPairs = e0.2.subscribedPairs := by
  intro e he
  unfold loadAvailablePairs at he
  obtain ⟨e0, he0, heq⟩ := List.mem_map.mp he
  refine ⟨e0, he0, ?_⟩
  rw [← heq]
  cases h2 : alookup rs e0.1 with
  | none => rfl
  | some o =>
    cases o with
    | none => rfl
    | some pairs =>
      by_cases hp2 : pairs.isEmpty
      · simp [hp2]
      · simp [hp2]

theorem NewOracleState_inv (providerFlags : List (String × Bool))
    (responses : List (String × Option (List String))) :
    SubscribedAvailable (NewOracleState providerFlags responses) := by
  intro e he kp hkp
  obtain ⟨e0, he0, hsub⟩ := loadAvailablePairs_subscribed responses _ e he
  obtain ⟨f, hf, hfe⟩ := List.mem_map.mp he0
  rw [hsub] at hkp
  rw [← hfe] at hkp
  simp at hkp

theorem keepSample_false_iff (X : List (String × List (String × ℚ))) (b : String) (v : ℚ) :
    keepSample (StandardDeviation X).1 (StandardDeviation X).2 b v = false ↔
      ∃ d mn, alookup (StandardDeviation X).1 b = some d ∧
        alookup (StandardDeviation X).2 b = some mn ∧
        (v < mn - d * deviationThreshold ∨ mn + d * deviationThreshold < v) := by
  cases hd : alookup (StandardDeviation X).1 b with
  | none =>
    have hk : keepSample (StandardDeviation X).1 (StandardDeviation X).2 b v = true := by
      simp [keepSample, hd]
    simp [hk, hd]
  | some d =>
    have hm := sd_mean_isSome_of_dev hd
    simp only [keepSample, hd, hm, Option.getD_some, Bool.and_eq_false_iff,
      decide_eq_false_iff_not, not_le, Option.some.injEq]
    constructor
    · intro h
      exact ⟨d, sdMean X b, rfl, rfl, h⟩
    · intro ⟨d2, mn2, hd2, hm2, h⟩
      rw [← hd2, ← hm2] at h
      exact h

/-! Claim theorems. -/

/-- C1 counterexample: the claim says that when the standard deviation for an
asset is not computable, every provider's sample for that asset is kept.  For
the candle filter this fails: a provider's candle entry whose candle slice is
empty yields no TVWAP scalar, so the filter drops it even though no standard
deviation was computed for the asset (the entry exists in the input, the
deviation map has no entry for ATOM, yet the output is empty). -/
theorem c1_counterexample :
    filterCandleDeviations 1000 emptySliceCandles = Except.ok [] ∧
    lookup2 emptySliceCandles "p" "ATOM" = some [] ∧
    alookup (StandardDeviation (tvwapsOfAll 1000 emptySliceCandles)).1 "ATOM" = none :=
  ⟨by with_unfolding_all rfl, by with_unfolding_all rfl, by with_unfolding_all rfl⟩

/-- C1 (amended): for the ticker filter the claim holds as stated: a sample
is dropped iff a standard deviation was computed for its asset and its price
lies strictly outside the closed interval mean ± threshold·deviation, and a
kept sample is returned unchanged; an asset contributed by fewer than 2
providers has no entry in the modelled StandardDeviation result, hence no
ticker filtering occurs for it.  For the candle filter the same iff holds for
every (provider, asset) entry that has a per-provider TVWAP scalar (the
kept entry being the provider's original candle slice); an entry with no
TVWAP scalar (for example an empty or entirely stale candle slice) is
dropped regardless of the standard deviation. -/
theorem c1_deviation_filter_iff :
    (∀ (prices : AggregatedProviderPrices), WF2 prices →
      ∀ fp, filterTickerDeviations prices = Except.ok fp →
        ∀ p b tp, lookup2 prices p b = some tp →
          (lookup2 fp p b = some tp ∨ lookup2 fp p b = none) ∧
          (lookup2 fp p b = none ↔
            ∃ d mn, alookup (StandardDeviation (toPriceMap prices)).1 b = some d ∧
              alookup (StandardDeviation (toPriceMap prices)).2 b = some mn ∧
              (tp.price < mn - d * deviationThreshold ∨
                mn + d * deviationThreshold < tp.price)))
    ∧ (∀ (values : List (String × List (String × ℚ))) (b : String),
        (valuesFor values b).length < 2 →
        alookup (StandardDeviation values).1 b = none)
    ∧ (∀ (now : ℤ) (candles : AggregatedProviderCandles), WFmap candles →
        ∀ fc, filterCandleDeviations now candles = Except.ok fc →
          ∀ p b,
            (lookup2 (tvwapsOfAll now candles) p b = none → lookup2 fc p b = none) ∧
            (∀ s, lookup2 (tvwapsOfAll now candles) p b = some s →
              (lookup2 fc p b = lookup2 candles p b ∨ lookup2 fc p b = none) ∧
              (lookup2 fc p b = none ↔
                ∃ d mn,
                  alookup (StandardDeviation (tvwapsOfAll now candles)).1 b = some d ∧
                  alookup (StandardDeviation (tvwapsOfAll now candles)).2 b = some mn ∧
                  (s < mn - d * deviationThreshold ∨
                    mn + d * deviationThreshold < s)))) := by
  refine ⟨?_, ?_, ?_⟩
  · intro prices hwf fp hfp p b tp hin
    have hl := lookup2_filterTicker prices hwf fp hfp p b
    simp only [hin] at hl
    by_cases hk : keepSample (StandardDeviation (toPriceMap prices)).1
        (StandardDeviation (toPriceMap prices)).2 b tp.price
    · rw [if_pos hk] at hl
      refine ⟨Or.inl hl, ?_, ?_⟩
      · intro h0
        rw [hl] at h0
        exact Option.noConfusion h0
      · intro ⟨d, mn, hd, hm, hout⟩
        have hfalse : keepSample (StandardDeviation (toPriceMap prices)).1
            (StandardDeviation (toPriceMap prices)).2 b tp.price = false :=
          (keepSample_false_iff _ _ _).mpr ⟨d, mn, hd, hm, hout⟩
        exact absurd (hk.symm.trans hfalse) (by decide)
    · have hkf : keepSample (StandardDeviation (toPriceMap prices)).1
          (StandardDeviation (toPriceMap prices)).2 b tp.price = false := by
        simpa using hk
      rw [if_neg hk] at hl
      refine ⟨Or.inr hl, ?_, ?_⟩
      · intro _
        exact (keepSample_false_iff _ _ _).mp hkf
      · intro _
        exact hl
  · exact fun values b h => sd_dev_lookup_of_few values b h
  · intro now candles hwf fc hfc p b
    have hl := lookup2_filterCandle now candles hwf fc hfc p b
    constructor
    · intro h0
      simp only [h0] at hl
      exact hl
    · intro s hp
      simp only [hp] at hl
      obtain ⟨cs0, hcs0⟩ := lookup2_tvwaps_to_candles hp
      by_cases hk : keepSample (StandardDeviation (tvwapsOfAll now candles)).1
          (StandardDeviation (tvwapsOfAll now candles)).2 b s
      · rw [if_pos hk] at hl
        rw [hcs0] at hl
        simp only [Option.getD_some] at hl
        rw [← hcs0] at hl
        refine ⟨Or.inl hl, ?_, ?_⟩
        · intro h0
          rw [hl, hcs0] at h0
          exact Option.noConfusion h0
        · intro ⟨d, mn, hd, hm, hout⟩
          have hfalse : keepSample (StandardDeviation (tvwapsOfAll now candles)).1
              (StandardDeviation (tvwapsOfAll now candles)).2 b s = false :=
            (keepSample_false_iff _ _ _).mpr ⟨d, mn, hd, hm, hout⟩
          exact absurd (hk.symm.trans hfalse) (by decide)
      · have hkf : keepSample (StandardDeviation (tvwapsOfAll now candles)).1
            (StandardDeviation (tvwapsOfAll now candles)).2 b s = false := by
          simpa using hk
        rw [if_neg hk] at hl
        refine ⟨Or.inr hl, ?_, ?_⟩
        · intro _
          exact (keepSample_false_iff _ _ _).mp hkf
        · intro _
          exact hl

/-- C1 witness: at the 3-provider concrete input the theorem applies: provider
c's sample for ATOM is kept unchanged by the ticker filter. -/
theorem c1_witness :
    lookup2 threeProviderTickers "c" "ATOM" = some ⟨15, 1⟩ ∨
    lookup2 threeProviderTickers "c" "ATOM" = none :=
  (c1_deviation_filter_iff.1 threeProviderTickers (by decide) threeProviderTickers
    (by with_unfolding_all rfl) "c" "ATOM" ⟨15, 1⟩ (by with_unfolding_all rfl)).1

/-- C9 counterexample: with 3 providers reporting prices 9.00, 9.05 and 15.00
for one asset at equal volume and threshold 2 standard deviations, the claim
says the 15.00 sample is rejected; in fact the filter keeps it (the mean is
661/60 and 15.00 deviates by only about 1.41 standard deviations), so the
output still contains provider c's 15.00 sample. -/
theorem c9_counterexample :
    ∃ fp, filterTickerDeviations threeProviderTickers = Except.ok fp ∧
      lookup2 fp "c" "ATOM" = some ⟨15, 1⟩ :=
  ⟨threeProviderTickers, by with_unfolding_all rfl, by with_unfolding_all rfl⟩

/-- C9 (amended): with 3 providers reporting prices 9.00, 9.05 and 15.00 for
one asset at equal volume and threshold 2 standard deviations, the deviation
filter keeps all three samples unchanged (computed with exact rational
arithmetic; 15.00 deviates by about 1.41σ < 2σ). -/
theorem c9_all_samples_kept :
    filterTickerDeviations threeProviderTickers = Except.ok threeProviderTickers := by
  with_unfolding_all rfl

/-- C10: deviation filtering never alters a kept sample and never adds
entries: for both the ticker and the candle filter, every (provider, base)
entry of the output map is present in the input map with the identical
TickerPrice value, respectively the identical candle slice. -/
theorem c10_filter_submap :
    (∀ (prices : AggregatedProviderPrices), WF2 prices →
      ∀ fp, filterTickerDeviations prices = Except.ok fp →
        ∀ p b tp, lookup2 fp p b = some tp → lookup2 prices p b = some tp)
    ∧ (∀ (now : ℤ) (candles : AggregatedProviderCandles), WFmap candles →
      ∀ fc, filterCandleDeviations now candles = Except.ok fc →
        ∀ p b cs, lookup2 fc p b = some cs → lookup2 candles p b = some cs) := by
  constructor
  · intro prices hwf fp hfp p b tp h
    have hl := lookup2_filterTicker prices hwf fp hfp p b
    rw [h] at hl
    cases hp : lookup2 prices p b with
    | none => simp only [hp] at hl; exact Option.noConfusion hl
    | some tp0 =>
      simp only [hp] at hl
      by_cases hk : keepSample (StandardDeviation (toPriceMap prices)).1
          (StandardDeviation (toPriceMap prices)).2 b tp0.price
      · rw [if_pos hk] at hl
        exact hl.symm
      · rw [if_neg hk] at hl
        exact Option.noConfusion hl
  · intro now candles hwf fc hfc p b cs h
    have hl := lookup2_filterCandle now candles hwf fc hfc p b
    rw [h] at hl
    cases hp : lookup2 (tvwapsOfAll now candles) p b with
    | none => simp only [hp] at hl; exact Option.noConfusion hl
    | some s =>
      simp only [hp] at hl
      by_cases hk : keepSample (StandardDeviation (tvwapsOfAll now candles)).1
          (StandardDeviation (tvwapsOfAll now candles)).2 b s
      · rw [if_pos hk] at hl
        obtain ⟨cs0, hcs0⟩ := lookup2_tvwaps_to_candles hp
        have h2 : cs = (lookup2 candles p b).getD [] := Option.some.inj hl
        rw [hcs0] at h2
        simp only [Option.getD_some] at h2
        rw [hcs0, h2]
      · rw [if_neg hk] at hl
        exact Option.noConfusion hl

/-- C10 witness: at a concrete well-formed input the kept sample of provider
a for ATOM is present in the input with the identical value. -/
theorem c10_witness :
    WF2 threeProviderTickers ∧
    lookup2 threeProviderTickers "a" "ATOM" = some ⟨9, 1⟩ :=
  ⟨by decide,
    c10_filter_submap.1 threeProviderTickers (by decide) threeProviderTickers
      (by with_unfolding_all rfl) "a" "ATOM" ⟨9, 1⟩ (by with_unfolding_all rfl)⟩

/-- C3: GetPrices either returns a map holding a price for every requested
base symbol (each equal to the published price), or fails naming a missing
base symbol (and, being an `Except`, returns no map at all); GetPrice on an
absent base returns an error naming that base. -/
theorem c3_getPrices_all_or_nothing :
    (∀ (st : OracleState) (baseSymbols : List String) (m : List (String × ℚ)),
        GetPrices st baseSymbols = Except.ok m →
        ∀ b ∈ baseSymbols, alookup m b = alookup st.prices b ∧ (alookup m b).isSome)
    ∧ (∀ (st : OracleState) (baseSymbols : List String) (e : String),
        GetPrices st baseSymbols = Except.error e →
        ∃ b, b ∈ baseSymbols ∧ alookup st.prices b = none ∧
          e = "error getting price for " ++ b)
    ∧ (∀ (st : OracleState) (b : String), alookup st.prices b = none →
        GetPrice st b = Except.error ("error getting price for " ++ b)) := by
  refine ⟨?_, ?_, ?_⟩
  · intro st bs m h b hb
    have h1 := getPricesLoop_ok st.prices bs [] m h b
    rw [if_pos hb] at h1
    have h2 := getPricesLoop_ok_isSome st.prices bs [] m h b hb
    refine ⟨h1, ?_⟩
    rw [h1]
    exact h2
  · intro st bs e h
    exact getPricesLoop_err st.prices bs [] e h
  · intro st b h
    unfold GetPrice
    rw [h]

/-- C3 witness: at a concrete state, a request for the published base
succeeds with its price, and GetPrice on an absent base errors naming it. -/
theorem c3_witness :
    (alookup [("OLD", (5 : ℚ))] "OLD" = alookup exSubscribedState.prices "OLD" ∧
      (alookup [("OLD", (5 : ℚ))] "OLD").isSome) ∧
    GetPrice exSubscribedState "UMEE" =
      Except.error ("error getting price for " ++ "UMEE") :=
  ⟨c3_getPrices_all_or_nothing.1 exSubscribedState ["OLD"] [("OLD", 5)]
      (by decide) "OLD" (by decide),
    c3_getPrices_all_or_nothing.2.2 exSubscribedState "UMEE" (by decide)⟩

/-- C2: in every tick, if the TVWAP computed from the filtered candle samples
yields at least one asset price, that TVWAP map becomes the published prices
with no error, and the ticker path is not invoked (the result is independent
of the ticker aggregate); if it yields zero assets, the published prices are
the VWAP of the independently filtered ticker samples. -/
theorem c2_candle_path_priority (now : ℤ) (pp : AggregatedProviderPrices)
    (pc : AggregatedProviderCandles) (st : OracleState)
    (fc : AggregatedProviderCandles) (tv : List (String × ℚ))
    (hfc : filterCandleDeviations now pc = Except.ok fc)
    (htv : ComputeTVWAP now fc = Except.ok tv) :
    (tv ≠ [] →
      (setPricesCore now pp pc st = (none, { st with prices := tv }) ∧
        ∀ pp2, setPricesCore now pp2 pc st = setPricesCore now pp pc st))
    ∧ (tv = [] →
      ∀ fpp vw, filterTickerDeviations pp = Except.ok fpp →
        ComputeVWAP fpp = Except.ok vw →
        setPricesCore now pp pc st = (none, { st with prices := vw })) := by
  constructor
  · intro hne
    have hemp : tv.isEmpty = false := by
      cases tv with
      | nil => exact absurd rfl hne
      | cons a l => rfl
    have hne2 : ¬(false = true) := by decide
    constructor
    · unfold setPricesCore
      simp only [hfc, htv, hemp, if_neg hne2]
    · intro pp2
      unfold setPricesCore
      simp only [hfc, htv, hemp, if_neg hne2]
  · intro he fpp vw hfpp hvw
    subst he
    unfold setPricesCore
    simp only [hfc, htv, List.isEmpty_nil, if_pos, hfpp, hvw]

/-- C2 witness: with one fresh candle the TVWAP map is nonempty and becomes
the published prices, with the ticker aggregate (here empty) never
consulted. -/
theorem c2_witness :
    setPricesCore 1000 [] freshCandles exSubscribedState =
      (none, { exSubscribedState with prices := [("ATOM", 10)] }) :=
  ((c2_candle_path_priority 1000 [] freshCandles exSubscribedState freshCandles
      [("ATOM", 10)] (by with_unfolding_all rfl) (by with_unfolding_all rfl)).1
    (List.cons_ne_nil _ _)).1

/-- C4: a tick whose setPrices fails leaves the whole oracle state, and in
particular the published price map, exactly as it was before the tick. -/
theorem c4_failed_tick_preserves_prices (now : ℤ)
    (tr : List (String × Except String (List (String × TickerPrice))))
    (cr : List (String × Except String (List (String × List CandlePrice))))
    (st : OracleState) (e : String)
    (h : (tick now tr cr st).1 = some e) : (tick now tr cr st).2 = st := by
  have hpair : tick now tr cr st = (some e, (tick now tr cr st).2) := by
    rw [← h]
  exact setPricesCore_error hpair

/-- C4 witness: a tick that fails in the VWAP computation (sole sample with
zero volume) reports the error and leaves the previous price map visible. -/
theorem c4_witness :
    (tick 0 zeroVolumeTickerResp emptyCandleResp exSubscribedState).1 =
      some ("unable to get the vwap for " ++ "ATOM") ∧
    (tick 0 zeroVolumeTickerResp emptyCandleResp exSubscribedState).2 =
      exSubscribedState :=
  ⟨by with_unfolding_all rfl,
    c4_failed_tick_preserves_prices 0 zeroVolumeTickerResp emptyCandleResp
      exSubscribedState ("unable to get the vwap for " ++ "ATOM")
      (by with_unfolding_all rfl)⟩

/-- C5 counterexample: the claim says that when any provider's subscription
call fails, no provider's subscribedPairs map gains any entry.  With two
providers where a succeeds and b fails, the call returns b's error yet
provider a has already recorded its new pair. -/
theorem c5_counterexample :
    (SubscribeSymbols twoProviderState ["ATOM"]).1 =
      some ("subscribing to new currency pairs " ++ "b") ∧
    alookup (SubscribeSymbols twoProviderState ["ATOM"]).2.providers "a" =
      some ⟨["ATOMUSD"], [("ATOMUSD", ⟨"ATOM", "USD"⟩)], false⟩ := by
  exact ⟨by with_unfolding_all rfl, by with_unfolding_all rfl⟩

/-- C5 (amended): when a provider's subscription call fails during a
single-base SubscribeSymbols call, the call returns an error, the base symbol
is not added to subscribedBaseSymbols, and the failing provider and every
provider after it in iteration order are unchanged; providers before it keep
their newly recorded pairs. -/
theorem c5_subscribe_failure_keeps_partial_state (st : OracleState) (b : String)
    (e : String) (h : (SubscribeSymbols st [b]).1 = some e) :
    (SubscribeSymbols st [b]).2.subscribedBaseSymbols = st.subscribedBaseSymbols ∧
    ∃ i name prov post,
      st.providers.drop i = (name, prov) :: post ∧ prov.subscribeFails = true ∧
      (SubscribeSymbols st [b]).2.providers.drop i = (name, prov) :: post := by
  unfold SubscribeSymbols subscribeSymbolsLoop at h ⊢
  by_cases hc : st.subscribedBaseSymbols.contains b = true
  · rw [if_pos hc] at h
    simp [subscribeSymbolsLoop] at h
  · rw [if_neg hc] at h ⊢
    cases hr : (subscribeProviders (GetStablecoinsCurrencyPair b) st.providers).1 with
    | none =>
      simp only [hr] at h
      simp [subscribeSymbolsLoop] at h
    | some e2 =>
      simp only [hr]
      refine ⟨by trivial, ?_⟩
      obtain ⟨i, n2, p2, post, hd, hf, hd2⟩ :=
        subscribeProviders_error (GetStablecoinsCurrencyPair b) st.providers e2 hr
      exact ⟨i, n2, p2, post, hd, hf, hd2⟩

/-- C5 witness: at the concrete two-provider state the failing call leaves
the failing provider b and the base-symbol set unchanged. -/
theorem c5_witness :
    (SubscribeSymbols twoProviderState ["ATOM"]).2.subscribedBaseSymbols =
      twoProviderState.subscribedBaseSymbols :=
  (c5_subscribe_failure_keeps_partial_state twoProviderState "ATOM"
    ("subscribing to new currency pairs " ++ "b") (by with_unfolding_all rfl)).1

/-- C6: in every reachable state of the oracle — a `New`-initialized state
(empty subscriptions, available sets loaded once) acted on by any sequence
of SubscribeSymbols calls and scheduling-loop iterations — every pair that a
tick's collection polls from a provider is a member of that provider's
current available-pairs set.  After startup the available sets can only
change in the select's reload branch, which is never selected (the fresh
1-second timer always fires first), and every subscribed pair was checked
against the available set at the moment it was recorded, so the invariant
holds in every reachable state. -/
theorem c6_polled_pairs_available (providerFlags : List (String × Bool))
    (responses : List (String × Option (List String))) (ops : List OracleOp)
    (p : String) (prov : Provider)
    (hp : alookup (runOps ⟨false, NewOracleState providerFlags responses⟩
      ops).oracle.providers p = some prov) :
    ∀ pair ∈ polledPairs
      (runOps ⟨false, NewOracleState providerFlags responses⟩ ops).oracle p,
      pairKey pair ∈ prov.availablePairs := by
  intro pair hpair
  have hr := runOps_inv ops ⟨false, NewOracleState providerFlags responses⟩
    (NewOracleState_inv providerFlags responses)
  unfold polledPairs at hpair
  simp only [hp] at hpair
  unfold MapPairsToSlice at hpair
  obtain ⟨kp, hkp, hsnd⟩ := List.mem_map.mp hpair
  rw [← hsnd]
  exact hr (p, prov) (alookup_mem hp) kp hkp

/-- C6 witness: starting from New with one provider whose available set
holds ATOMUSD, subscribing ATOM and then running one loop iteration, the
polled pair ATOM/USD is in the provider's current available set. -/
theorem c6_witness :
    pairKey ⟨"ATOM", "USD"⟩ ∈
      (Provider.mk ["ATOMUSD"] [("ATOMUSD", ⟨"ATOM", "USD"⟩)] false).availablePairs :=
  c6_polled_pairs_available [("p", false)] [("p", some ["ATOMUSD"])]
    [OracleOp.subscribeOp ["ATOM"], OracleOp.loopOp exIterInput] "p"
    (Provider.mk ["ATOMUSD"] [("ATOMUSD", ⟨"ATOM", "USD"⟩)] false)
    (by with_unfolding_all rfl) ⟨"ATOM", "USD"⟩ (by with_unfolding_all decide)

/-- C7: after Stop returns (it merely closes the done channel it then reads
itself), a loop iteration with a live context still selects the tick branch
and runs a full tick: the loop neither exits nor observes the closer, so
Stop does not prevent further ticks or further price publications. -/
theorem c7_loop_ticks_after_stop (st : LoopState) (inp : IterInput)
    (h : inp.ctxIsDone = false) :
    (Stop st).closerClosed = true ∧
    startIter (Stop st) inp =
      { closerClosed := true,
        oracle := (tick inp.now inp.tickerResp inp.candleResp st.oracle).2 } := by
  refine ⟨rfl, ?_⟩
  unfold startIter Stop
  rw [h, selectBranch_false]

/-- C7 witness: concretely, after Stop the next iteration still performs a
tick and publishes a new price map. -/
theorem c7_witness :
    exIterInput.ctxIsDone = false ∧
    startIter (Stop ⟨false, exSubscribedState⟩) exIterInput =
      { closerClosed := true,
        oracle := { exSubscribedState with prices := [("ATOM", 10)] } } := by
  refine ⟨rfl, ?_⟩
  rw [(c7_loop_ticks_after_stop ⟨false, exSubscribedState⟩ exIterInput rfl).2]
  with_unfolding_all rfl

/-- C8: the reload branch of the select is never taken (both timers are fresh
every iteration and the 1 second tick timer always fires before the 24 hour
reload timer), so however long the loop runs, no provider's available-pairs
set ever changes after startup. -/
theorem c8_reload_branch_never_taken :
    (∀ ctxIsDone : Bool, selectBranch ctxIsDone ≠ LoopBranch.reloadTimer) ∧
    (∀ (st : LoopState) (inps : List IterInput),
      ((runLoop st inps).oracle.providers.map fun e => (e.1, e.2.availablePairs)) =
        st.oracle.providers.map fun e => (e.1, e.2.availablePairs)) := by
  constructor
  · intro b
    cases b with
    | false => rw [selectBranch_false]; intro hx; exact LoopBranch.noConfusion hx
    | true => rw [selectBranch_true]; intro hx; exact LoopBranch.noConfusion hx
  · intro st inps
    induction inps generalizing st with
    | nil => rfl
    | cons inp rest ih =>
      have hstep : runLoop st (inp :: rest) = runLoop (startIter st inp) rest := rfl
      rw [hstep, ih (startIter st inp), startIter_availablePairs]

end PeggoOracle
